import Mathlib

/-!
Mobell: a verification development for `main.go`.

Shallow embedding of the command-line tool `mobell` (package `main`,
file `main.go`) together with the properties of its configuration
resolver, its path resolution and its notification fan-out.

Conventions of the embedding:

* A Go `string` is modelled by the list of its characters (`Str`).  All the
  delimiters the program slices at (`$`, `/`, `,`, the prefix `$HOME`) are
  ASCII, so an index counted in characters cuts the text at the same place as
  Go's byte index does.  `len` is the byte length (UTF-8), as in Go.
* `fmt.Printf` / `fmt.Println` calls are recorded as events which keep the
  format string of the source and the argument values.
* The operating system (environment variables, working directory, terminal
  input, file system, clock, network) is a parameter of every operation.
* `path/filepath` is modelled for Unix-like platforms (separator `/`, no
  volume names).
-/

namespace Mobell

/-! ## Strings -/

/-- A Go string, as the sequence of its characters. -/
abbrev Str := List Char

/-- Go's `len(s)`: the number of bytes of the UTF-8 encoding of `s`. -/
def len (s : Str) : Nat := (s.map Char.utf8Size).sum

/-- Go's `strings.HasPrefix(s, pre)`. -/
def HasPrefix (s pre : Str) : Bool := pre.isPrefixOf s

/-- Position of the first occurrence of `sep` in `s`, if any. -/
def indexByte : Str → Char → Option Nat
  | [], _ => none
  | c :: t, sep => if c = sep then some 0 else (indexByte t sep).map (· + 1)

/-- Go's `strings.Index(s, sep)` for a one-character separator: the index of
the first occurrence, or `-1`. -/
def Index (s : Str) (sep : Char) : Int :=
  match indexByte s sep with
  | some i => (i : Int)
  | none => -1

deriving instance DecidableEq for Except

/-- A Go run-time panic. -/
inductive Panic where
  | sliceBounds
  deriving DecidableEq, Repr

/-- Go's slice expression `s[lo:hi]`; it panics unless `0 ≤ lo ≤ hi ≤ len(s)`. -/
def slice (s : Str) (lo hi : Int) : Except Panic Str :=
  if 0 ≤ lo ∧ lo ≤ hi ∧ hi ≤ (s.length : Int) then
    .ok ((s.take hi.toNat).drop lo.toNat)
  else .error .sliceBounds

/-- Go's slice expression `s[lo:]`; it panics unless `0 ≤ lo ≤ len(s)`. -/
def sliceFrom (s : Str) (lo : Int) : Except Panic Str :=
  if 0 ≤ lo ∧ lo ≤ (s.length : Int) then .ok (s.drop lo.toNat)
  else .error .sliceBounds

/-- Go's `strings.Split(s, ",")` for a one-character separator: the pieces
between the separators, always at least one piece. -/
def Split : Str → Char → List Str
  | [], _ => [[]]
  | c :: t, sep =>
    if c = sep then [] :: Split t sep
    else
      match Split t sep with
      | [] => [[c]]
      | p :: ps => (c :: p) :: ps

/-- Go's `unicode.IsSpace`. -/
def isSpace (c : Char) : Bool :=
  let n := c.toNat
  n = 0x09 ∨ n = 0x0A ∨ n = 0x0B ∨ n = 0x0C ∨ n = 0x0D ∨ n = 0x20 ∨ n = 0x85 ∨ n = 0xA0 ∨
  n = 0x1680 ∨ (0x2000 ≤ n ∧ n ≤ 0x200A) ∨ n = 0x2028 ∨ n = 0x2029 ∨ n = 0x202F ∨
  n = 0x205F ∨ n = 0x3000

/-- Loop of `strings.Fields`: `cur` is the field being read. -/
def fieldsLoop : Str → Str → List Str
  | [], cur => if cur = [] then [] else [cur]
  | c :: t, cur =>
    if isSpace c then
      if cur = [] then fieldsLoop t [] else cur :: fieldsLoop t []
    else fieldsLoop t (cur ++ [c])

/-- Go's `strings.Fields(s)`: the maximal runs of non-space characters. -/
def Fields (s : Str) : List Str := fieldsLoop s []

/-! ## `path/filepath` on Unix-like platforms -/

/-- The constant `os.PathSeparator`. -/
def PathSeparator : Char := '/'

/-- Go's `os.IsPathSeparator(c)`. -/
def IsPathSeparator (c : Char) : Bool := c = PathSeparator

/-- Go's `filepath.IsAbs(path)`. -/
def IsAbs (path : Str) : Bool := HasPrefix path [PathSeparator]

/-- Whether a path element ends here: end of the path or a separator
(`r+1 == n || os.IsPathSeparator(path[r+1])` in `filepath.Clean`). -/
def isElemEnd (l : Str) : Bool :=
  match l with
  | [] => true
  | c :: _ => IsPathSeparator c

/-- The backtracking of `filepath.Clean` on a `..` element, on the reversed
output buffer: `out.w--`, then `out.w--` again while `out.w > dotdot` and the
byte at `out.w` is not a separator. -/
def backtrackRev (dotdot : Nat) : List Char → List Char
  | [] => []
  | c :: r => if r.length > dotdot ∧ ¬ IsPathSeparator c then backtrackRev dotdot r else r

/-- The backtracking of `filepath.Clean` on the output buffer. -/
def backtrack (dotdot : Nat) (out : Str) : Str :=
  (backtrackRev dotdot out.reverse).reverse

/-- The main loop of `filepath.Clean`: `rest` is `path[r:]`, `out` the output
buffer written so far (`out.w` is its length), `dotdot` the index where `..`
must stop.  One unit of fuel is one iteration; every iteration reads at least
one byte. -/
def cleanLoop (rooted : Bool) : Nat → Str → Str → Nat → Str
  | 0, _, out, _ => out
  | fuel + 1, rest, out, dotdot =>
    match rest with
    | [] => out
    | c :: t =>
      if IsPathSeparator c then
        -- empty path element
        cleanLoop rooted fuel t out dotdot
      else if c = '.' ∧ isElemEnd t then
        -- . element
        cleanLoop rooted fuel t out dotdot
      else if c = '.' ∧ t.head? = some '.' ∧ isElemEnd t.tail then
        -- .. element: remove to last separator
        if out.length > dotdot then
          cleanLoop rooted fuel t.tail (backtrack dotdot out) dotdot
        else if ¬ rooted then
          let out1 := if out.length > 0 then out ++ [PathSeparator] else out
          let out2 := out1 ++ ['.', '.']
          cleanLoop rooted fuel t.tail out2 out2.length
        else
          cleanLoop rooted fuel t.tail out dotdot
      else
        -- real path element: add slash if needed, copy element
        let out1 :=
          if (rooted ∧ out.length ≠ 1) ∨ (¬ rooted ∧ out.length ≠ 0) then out ++ [PathSeparator]
          else out
        cleanLoop rooted fuel (rest.dropWhile (fun b => !IsPathSeparator b))
          (out1 ++ rest.takeWhile (fun b => !IsPathSeparator b)) dotdot

/-- Go's `filepath.Clean(path)`. -/
def Clean (path : Str) : Str :=
  match path with
  | [] => ['.']
  | c :: t =>
    let rooted : Bool := IsPathSeparator c
    let out :=
      if rooted then cleanLoop rooted path.length t [PathSeparator] 1
      else cleanLoop rooted path.length path [] 0
    if out.length = 0 then ['.'] else out

/-- Go's `filepath.Join(elem...)`: the elements from the first non-empty one
on, joined with the separator and cleaned. -/
def Join : List Str → Str
  | [] => []
  | e :: es => if e ≠ [] then Clean ([PathSeparator].intercalate (e :: es)) else Join es

/-! ## The process environment -/

/-- What the operating system answers to the calls made by the path code. -/
structure Env where
  /-- The constant `runtime.GOOS`. -/
  GOOS : Str
  /-- The environment variables; `none` for a variable that is not set. -/
  vars : Str → Option Str
  /-- The result of `os.Getwd()`. -/
  Getwd : Except Str Str

/-- Go's `os.Getenv(key)`: the value, or the empty string when unset. -/
def Getenv (env : Env) (key : Str) : Str := (env.vars key).getD []

/-- Go's `filepath.Abs(path)`. -/
def Abs (env : Env) (path : Str) : Except Str Str :=
  if IsAbs path then .ok (Clean path)
  else
    match env.Getwd with
    | .error e => .error e
    | .ok wd => .ok (Join [wd, path])

/-- `userHomeDir` of `main.go`. -/
def userHomeDir (env : Env) : Str :=
  if env.GOOS = "windows".toList then
    let home := Getenv env "HOMEDRIVE".toList ++ Getenv env "HOMEPATH".toList
    if home = [] then Getenv env "USERPROFILE".toList else home
  else Getenv env "HOME".toList

/-- First statement of `absPathify`: the `$HOME` prefix. -/
def expandHome (env : Env) (inPath : Str) : Except Panic Str :=
  if HasPrefix inPath "$HOME".toList then
    match sliceFrom inPath 5 with
    | .ok t => .ok (userHomeDir env ++ t)
    | .error p => .error p
  else .ok inPath

/-- Second statement of `absPathify`: a leading `$VAR` segment. -/
def expandVar (env : Env) (inPath : Str) : Except Panic Str :=
  if HasPrefix inPath "$".toList then
    let endIndex := Index inPath PathSeparator
    match slice inPath 1 endIndex with
    | .error p => .error p
    | .ok name =>
      match sliceFrom inPath endIndex with
      | .error p => .error p
      | .ok rest => .ok (Getenv env name ++ rest)
  else .ok inPath

/-- Last two statements of `absPathify`, on the expanded path. -/
def absClean (env : Env) (inPath : Str) : Str :=
  if IsAbs inPath then Clean inPath
  else
    match Abs env inPath with
    | .ok p => Clean p
    | .error _ => []

/-- `absPathify` of `main.go`; `.error` is a run-time panic. -/
def absPathify (env : Env) (inPath : Str) : Except Panic Str :=
  match expandHome env inPath with
  | .error p => .error p
  | .ok p1 =>
    match expandVar env p1 with
    | .error p => .error p
    | .ok p2 => .ok (absClean env p2)

/-! ## Console output -/

/-- An argument of a formatted print. -/
inductive Arg where
  | str (s : Str)
  | int (n : Int)
  deriving DecidableEq, Repr

/-- A call of `fmt.Printf` (format string of the source and arguments) or of
`fmt.Println` (arguments). -/
inductive Output where
  | Printf (format : String) (args : List Arg)
  | Println (args : List Arg)
  deriving DecidableEq, Repr

/-! ## The configuration held by viper -/

namespace viper

/-- A value of the parsed JSON config file: `null`, a string, an array of
strings (the two shapes the config format gives to its keys), or a value of
another JSON type, given with what `cast.ToString` and `cast.ToStringSlice` make
of it. -/
inductive Value where
  | null
  | str (s : Str)
  | strs (items : List Str)
  | other (asString : Str) (asStringSlice : List Str)
  deriving DecidableEq, Repr

/-- The top-level keys of the parsed config file, as viper stores them. -/
abbrev ConfigFile := List (Str × Value)

/-- The outcome of `viper.ReadInConfig()`. -/
inductive ReadResult where
  /-- A config file was found and parsed. -/
  | ok (cfg : ConfigFile)
  /-- The error is a `viper.ConfigFileNotFoundError`. -/
  | notFound (err : Str)
  /-- Any other error (unreadable or unparsable file). -/
  | failed (err : Str)
  deriving DecidableEq, Repr

/-- The call `viper.Get(key)`: `none` stands for Go's `nil`, the answer for a key
that is absent from the file or whose value is JSON `null`. -/
def Get (cfg : ConfigFile) (key : Str) : Option Value :=
  match cfg.lookup key with
  | none => none
  | some .null => none
  | some v => some v

/-- The call `viper.GetString(key)`: the string value, the empty string when there
is none. -/
def GetString (cfg : ConfigFile) (key : Str) : Str :=
  match Get cfg key with
  | some (.str s) => s
  | some (.other s _) => s
  | _ => []

/-- The call `viper.GetStringSlice(key)`: an array as it is, a string cut into its
fields, nothing otherwise. -/
def GetStringSlice (cfg : ConfigFile) (key : Str) : List Str :=
  match Get cfg key with
  | some (.strs items) => items
  | some (.str s) => Fields s
  | some (.other _ items) => items
  | _ => []

/-- The call `viper.AddConfigPath(path)`, as `main.go` sees it: the path is
registered after the ones registered before. -/
def AddConfigPath (configPaths : List Str) (path : Str) : List Str :=
  configPaths ++ [path]

end viper

/-! ## The pushover client library -/

namespace pushover

/-- The priority levels of the Pushover message API, as the client library
`github.com/gregdel/pushover` names them: lowest `-2`, low `-1`, normal `0`,
high `1`, emergency `2`. -/
def PriorityLowest : Int := -2

/-- See `PriorityLowest`. -/
def PriorityLow : Int := -1

/-- See `PriorityLowest`. -/
def PriorityNormal : Int := 0

/-- See `PriorityLowest`. -/
def PriorityHigh : Int := 1

/-- See `PriorityLowest`. -/
def PriorityEmergency : Int := 2

/-- The priority levels the service supports. -/
def priorities : List Int :=
  [PriorityLowest, PriorityLow, PriorityNormal, PriorityHigh, PriorityEmergency]

/-- The fields of `pushover.Message` that `main.go` sets. -/
structure Message where
  Message : Str
  Title : Str
  Priority : Int
  deriving DecidableEq, Repr

/-- The call `pushover.NewMessageWithTitle(message, title)`. -/
def NewMessageWithTitle (message title : Str) : Message :=
  { Message := message, Title := title, Priority := 0 }

/-- A call `app.SendMessage(message, recipient)`, where `app` was made by
`pushover.New(token)` and `recipient` by `pushover.NewRecipient(recipient)`. -/
structure SendCall where
  token : Str
  message : Message
  recipient : Str
  deriving DecidableEq, Repr

end pushover

/-! ## The process -/

/-- Everything outside the program that a command depends on. -/
structure Process where
  env : Env
  /-- The value of `os.Args[0]`. -/
  arg0 : Str
  /-- The outcome of `viper.ReadInConfig()`. -/
  ReadInConfig : viper.ReadResult
  /-- The value of `time.Now().Format(time.RFC822)`. -/
  nowRFC822 : Str
  /-- The error returned by the `i`-th call of `app.SendMessage`, counted in
  launch order from `0`; `none` when the send succeeds. -/
  SendMessage : Nat → Option Str

/-- The config viper holds after `viper.ReadInConfig()`. -/
def Process.config (w : Process) : viper.ConfigFile :=
  match w.ReadInConfig with
  | .ok cfg => cfg
  | _ => []

/-- The variable `defaultUserConfigPath`, as `init()` sets it. -/
def defaultUserConfigPath (env : Env) : Str :=
  if Getenv env "XDG_CONFIG_HOME".toList ≠ [] then "$XDG_CONFIG_HOME/mobell".toList
  else "$HOME/.config/mobell".toList

/-- The config paths registered by `main()`, in the order of registration. -/
def configPaths (env : Env) : List Str :=
  let paths0 : List Str := []
  let paths1 :=
    if Getenv env "MOBELL_CONF_PATH".toList ≠ [] then
      viper.AddConfigPath paths0 "$MOBELL_CONF_PATH".toList
    else paths0
  let paths2 := viper.AddConfigPath paths1 (defaultUserConfigPath env)
  viper.AddConfigPath paths2 "/etc/mobell/".toList

/-! ## `mustLoadConfig` -/

/-- What a call of `mustLoadConfig` did: its output, and the exit code when it
ended the process (`none` when it returned). -/
structure Load where
  output : List Output
  exit : Option Nat
  deriving DecidableEq, Repr

/-- The slice `requiredKeys` of `mustLoadConfig`. -/
def requiredKeys : List Str := ["pushover_user_key".toList, "pushover_api_key".toList]

/-- The loop of `mustLoadConfig` over the required keys; the state is the output
so far and the flag `missingKeys`. -/
def checkRequiredKeys (cfg : viper.ConfigFile) : List Str → List Output × Bool → List Output × Bool
  | [], st => st
  | key :: keys, (out, missingKeys) =>
    if viper.Get cfg key = none then
      checkRequiredKeys cfg keys
        (out ++ [.Printf "config file is missing '%s'\n" [.str key]], true)
    else checkRequiredKeys cfg keys (out, missingKeys)

/-- `mustLoadConfig` of `main.go`. -/
def mustLoadConfig (w : Process) : Load :=
  match w.ReadInConfig with
  | .notFound err =>
    { output :=
        [.Printf "Could not config.json: %s\n" [.str err],
         .Printf "Use `%s init` to create a config file in %s\n"
           [.str w.arg0, .str (defaultUserConfigPath w.env)]],
      exit := some 1 }
  | .failed err =>
    { output := [.Printf "Failed to read config.json file: %s\n" [.str err]], exit := some 1 }
  | .ok cfg =>
    let st := checkRequiredKeys cfg requiredKeys ([], false)
    if st.2 then
      { output := st.1 ++
          [.Printf "Use `%s init` to regenerate the config file in %s\n"
            [.str w.arg0, .str (defaultUserConfigPath w.env)]],
        exit := some 1 }
    else { output := st.1, exit := none }

/-! ## `sendNotification` -/

/-- What one goroutine of `sendNotification` did: the send it attempted and what
it printed. -/
structure Goroutine where
  call : pushover.SendCall
  output : List Output
  deriving DecidableEq, Repr

/-- What a call of `sendNotification` did: the message it was handed, the output
of the calling goroutine in order, and the goroutines it launched, in launch
order.  The goroutines run concurrently: the order of the list is the order of
launch, not an order in time. -/
structure Dispatch where
  handed : pushover.Message
  output : List Output
  goroutines : List Goroutine
  deriving DecidableEq, Repr

/-- The body of the goroutine started for `recipientKey`; `err` is what
`app.SendMessage` returned. -/
def goroutine (token : Str) (message : pushover.Message) (recipientKey : Str)
    (err : Option Str) : Goroutine :=
  { call := { token := token, message := message, recipient := recipientKey },
    output :=
      match err with
      | some e => [.Printf "failed to send to %s: %s\n" [.str recipientKey, .str e]]
      | none => [] }

/-- The loop of `sendNotification` over the recipient keys, from the `i`-th launch
on: the goroutines it starts. -/
def launch (token : Str) (message : pushover.Message) (SendMessage : Nat → Option Str) :
    Nat → List Str → List Goroutine
  | _, [] => []
  | i, recipientKey :: keys =>
    goroutine token message recipientKey (SendMessage i)
      :: launch token message SendMessage (i + 1) keys

/-- `sendNotification` of `main.go`. -/
def sendNotification (w : Process) (message : pushover.Message) : Dispatch :=
  let message1 := { message with Priority := pushover.PriorityHigh }
  let token := viper.GetString w.config "pushover_api_key".toList
  let recipientKeys := viper.GetStringSlice w.config "pushover_user_key".toList
  { handed := message,
    output :=
      [.Println [.str token],
       .Printf "Sending to %d users\n" [.int recipientKeys.length]]
      ++ recipientKeys.map (fun recipientKey => .Println [.str recipientKey])
      ++ [.Printf "Sent to %d users.\n" [.int recipientKeys.length]],
    goroutines := launch token message1 w.SendMessage 0 recipientKeys }

/-! ## The commands -/

/-- What a run of a command did. -/
structure Run where
  /-- Output of the main goroutine, in order. -/
  output : List Output
  /-- Exit code of the process. -/
  exit : Nat
  /-- The call of `sendNotification`, when there was one. -/
  dispatch : Option Dispatch
  deriving DecidableEq, Repr

/-- The title of every message. -/
def title : Str := "Mobell 🔔".toList

/-- Runs `sendNotification` after `mustLoadConfig`, unless the latter ended the
process. -/
def afterLoad (w : Process) (message : pushover.Message) : Run :=
  let load := mustLoadConfig w
  match load.exit with
  | some code => { output := load.output, exit := code, dispatch := none }
  | none =>
    let d := sendNotification w message
    { output := load.output ++ d.output, exit := 0, dispatch := some d }

/-- The `Run` function of `rootCmd`. -/
def rootCmd (w : Process) (_args : List Str) : Run :=
  afterLoad w (pushover.NewMessageWithTitle ("Triggered at ".toList ++ w.nowRFC822) title)

/-- The message text chosen by the `Run` function of `pushCmd`. -/
def pushCmdMessage (w : Process) (args : List Str) : Str :=
  let message := "Triggered at ".toList ++ w.nowRFC822
  match args with
  | [] => message
  | arg0 :: _ => arg0

/-- The `Run` function of `pushCmd`. -/
def pushCmd (w : Process) (args : List Str) : Run :=
  afterLoad w (pushover.NewMessageWithTitle (pushCmdMessage w args) title)

/-! ## The `init` wizard -/

/-- What the terminal and the file system answer to the wizard. -/
structure Wizard where
  /-- The first `fmt.Scanln`: the API key read, or the error. -/
  scanApiKey : Except Str Str
  /-- The second `fmt.Scanln`: the user keys read, or the error. -/
  scanUserKeys : Except Str Str
  /-- The error of `os.MkdirAll`, if any. -/
  MkdirAll : Option Str
  /-- The error of `os.Create`, if any. -/
  Create : Option Str
  /-- The error of `json.NewEncoder(f).Encode`, if any. -/
  Encode : Option Str
  /-- The error of `f.Close`, if any. -/
  Close : Option Str

/-- The JSON document written by the wizard. -/
structure Written where
  file : Str
  pushover_api_key : Str
  pushover_user_key : List Str
  deriving DecidableEq, Repr

/-- What a run of the wizard did. -/
structure InitRun where
  output : List Output
  exit : Nat
  written : Option Written
  deriving DecidableEq, Repr

/-- The loop of `initCmd` over the user keys: `i` is the index of the first key
of the list. -/
def userKeyNotes (apiKey : Str) : Nat → List Str → List Output
  | _, [] => []
  | i, userKey :: users =>
    (if len userKey ≠ 30 then
      [Output.Printf
        "Note: pushover.net user keys are usually 32 characters but #%d is %d characters.\n"
        [.int (i + 1), .int (len apiKey)]]
    else [])
    ++ userKeyNotes apiKey (i + 1) users

/-- The notes printed at the end of `initCmd`. -/
def keyNotes (apiKey : Str) (users : List Str) : List Output :=
  (if len apiKey ≠ 30 then
    [Output.Printf
      "Note: pushover.net api keys are usually 32 characters but the one you provided is %d characters.\n"
      [.int (len apiKey)]]
  else [])
  ++ userKeyNotes apiKey 0 users

/-- The `Run` function of `initCmd`, from the resolved `configPath` on. -/
def initCmdAt (env : Env) (io : Wizard) (configPath : Str) : InitRun :=
  let out0 : List Output :=
    (if configPath = [] then
      [.Printf "failed to resolve the config location: %s" [.str (defaultUserConfigPath env)]]
    else [])
    ++ [.Println [.str "To use Mobell, you must setup an account at https://pushover.net.".toList],
        .Println [.str "Enter your API key:".toList]]
  match io.scanApiKey with
  | .error e =>
    { output := out0 ++ [.Printf "failed to read input: %s\n" [.str e]], exit := 1, written := none }
  | .ok apiKey =>
    let out1 := out0 ++ [.Println [.str "Enter your User key (comma separated if multiple):".toList]]
    match io.scanUserKeys with
    | .error e =>
      { output := out1 ++ [.Printf "failed to read input: %s\n" [.str e]], exit := 1,
        written := none }
    | .ok userKeys =>
      let users := Split userKeys ','
      match io.MkdirAll with
      | some e =>
        { output := out1 ++ [.Printf "failed to create config directory: %s\n" [.str e]],
          exit := 1, written := none }
      | none =>
        match io.Create with
        | some e =>
          { output := out1 ++ [.Printf "failed to open file for writing: %s\n" [.str e]],
            exit := 1, written := none }
        | none =>
          match io.Encode with
          | some e =>
            { output := out1 ++ [.Printf "error occurred while writing file: %s\n" [.str e]],
              exit := 1, written := none }
          | none =>
            let doc : Written :=
              { file := configPath ++ "/config.json".toList, pushover_api_key := apiKey,
                pushover_user_key := users }
            match io.Close with
            | some e =>
              { output := out1 ++ [.Printf "error occurred while closing file: %s\n" [.str e]],
                exit := 1, written := some doc }
            | none =>
              { output := out1 ++ [.Println [.str "Config saved.".toList], .Println []]
                  ++ keyNotes apiKey users,
                exit := 0, written := some doc }

/-- The `Run` function of `initCmd`; `.error` is a run-time panic. -/
def initCmd (env : Env) (io : Wizard) : Except Panic InitRun :=
  match absPathify env (defaultUserConfigPath env) with
  | .error p => .error p
  | .ok configPath => .ok (initCmdAt env io configPath)

/-! ## Notions used in the statements -/

/-- A real path element: not empty, without separator, neither `.` nor `..`. -/
def RealElem (c : Str) : Prop :=
  c ≠ [] ∧ PathSeparator ∉ c ∧ c ≠ ['.'] ∧ c ≠ ['.', '.']

/-- Elements written one after the other, each after a separator. -/
def body : List Str → Str
  | [] => []
  | c :: cs => PathSeparator :: c ++ body cs

/-- The rooted path made of the elements `cs`. -/
def render (cs : List Str) : Str :=
  if cs = [] then [PathSeparator] else body cs

/-- The variable `key` is set to a non-empty value. -/
def isSetNonEmpty (env : Env) (key : Str) : Bool :=
  match env.vars key with
  | some v => v ≠ []
  | none => false

/-- The key is absent from the config file, or its value is `null`. -/
def absentOrNull (cfg : viper.ConfigFile) (key : Str) : Bool :=
  match cfg.lookup key with
  | none => true
  | some .null => true
  | some _ => false

/-- The line `mustLoadConfig` prints for a missing key. -/
def missingLine (key : Str) : Output :=
  .Printf "config file is missing '%s'\n" [.str key]

/-- The number of sends, among the first `n`, that did not fail. -/
def reached (w : Process) (n : Nat) : Nat :=
  ((List.range n).filter (fun i => (w.SendMessage i).isNone)).length

/-- The names after `$` for which `absPathify` expands exactly the variable of
that name: `HOME` itself off Windows (with a home directory that does not start
with `$`), and every name that does not begin with `HOME`. -/
def plainName (env : Env) (name : Str) : Prop :=
  HasPrefix name "HOME".toList = false
    ∨ (name = "HOME".toList ∧ env.GOOS ≠ "windows".toList
        ∧ HasPrefix (Getenv env "HOME".toList) "$".toList = false)

/-! ## Sample inputs -/

/-- A Linux environment: `HOME` and `XDG_CONFIG_HOME` are absolute paths, `V` is
a relative path, nothing else is set. -/
def linuxEnv : Env :=
  { GOOS := "linux".toList,
    vars := fun key =>
      if key = "HOME".toList then some "/home/u".toList
      else if key = "XDG_CONFIG_HOME".toList then some "/home/u/.cfg/".toList
      else if key = "V".toList then some "rel".toList
      else none,
    Getwd := .ok "/w/d".toList }

/-- A process on `linuxEnv` with the given outcome of reading the config; every
send fails. -/
def sampleProcess (r : viper.ReadResult) : Process :=
  { env := linuxEnv, arg0 := "mobell".toList, ReadInConfig := r,
    nowRFC822 := "01 Nov 26 10:00 UTC".toList,
    SendMessage := fun _ => some "network unreachable".toList }

/-- A config file with one recipient key and the empty string as API key. -/
def emptyApiKeyConfig : viper.ConfigFile :=
  [("pushover_user_key".toList, .strs ["u1".toList]), ("pushover_api_key".toList, .str [])]

/-- A config file with one recipient key and an API key. -/
def oneRecipientConfig : viper.ConfigFile :=
  [("pushover_user_key".toList, .strs ["u1".toList]),
   ("pushover_api_key".toList, .str "k1".toList)]

/-- A config file without the API key. -/
def noApiKeyConfig : viper.ConfigFile :=
  [("pushover_user_key".toList, .strs ["u1".toList]), ("pushover_api_key".toList, .null)]

/-- Answers of the terminal and the file system: an API key of 30 characters, the
user keys `short` and one of 30 characters, no error. -/
def sampleWizard : Wizard :=
  { scanApiKey := .ok (List.replicate 30 'a'),
    scanUserKeys := .ok ("short,".toList ++ List.replicate 30 'u'),
    MkdirAll := none, Create := none, Encode := none, Close := none }

/-! ## Properties of `filepath.Clean` on rooted paths -/

theorem body_append (cs : List Str) (c : Str) :
    body (cs ++ [c]) = body cs ++ PathSeparator :: c := by
  induction cs with
  | nil => simp [body]
  | cons d ds ih => simp [body, ih]

theorem body_eq_nil_or_head (cs : List Str) :
    body cs = [] ∨ ∃ y, body cs = PathSeparator :: y := by
  cases cs with
  | nil => left; rfl
  | cons c cs => right; exact ⟨_, rfl⟩

theorem two_le_length_body (c : Str) (cs : List Str) (hc : c ≠ []) :
    2 ≤ (body (c :: cs)).length := by
  cases c with
  | nil => exact absurd rfl hc
  | cons x c => simp only [body, List.cons_append, List.length_cons]; omega

theorem render_ne_nil (cs : List Str) : render cs ≠ [] := by
  unfold render
  cases cs with
  | nil => simp
  | cons c cs => simp [body]

theorem render_head (cs : List Str) : ∃ t, render cs = PathSeparator :: t := by
  unfold render
  cases cs with
  | nil => exact ⟨[], by simp⟩
  | cons c cs => exact ⟨c ++ body cs, by simp [body]⟩

theorem render_length_eq_one_iff (cs : List Str) (h : ∀ c ∈ cs, RealElem c) :
    (render cs).length = 1 ↔ cs = [] := by
  constructor
  · intro h1
    cases cs with
    | nil => rfl
    | cons c cs =>
      have := two_le_length_body c cs (h c (by simp)).1
      simp [render] at h1
      simp at this
      omega
  · rintro rfl; simp [render]

theorem render_snoc (cs : List Str) (c : Str) :
    render (cs ++ [c]) = body cs ++ PathSeparator :: c := by
  simp [render, body_append]

theorem backtrackRev_elem (l X : List Char) (hl : l ≠ []) (hs : PathSeparator ∉ l) :
    backtrackRev 1 (l ++ PathSeparator :: X) = if X = [] then [PathSeparator] else X := by
  induction l with
  | nil => exact absurd rfl hl
  | cons x l ih =>
    have hx : IsPathSeparator x = false := by
      simp only [IsPathSeparator, decide_eq_false_iff_not]
      exact fun h => hs (by simp [h])
    have hsep : IsPathSeparator PathSeparator = true := by simp [IsPathSeparator]
    cases l with
    | nil =>
      by_cases hX : X = []
      · subst hX; simp [backtrackRev]
      · have : 0 < X.length := List.length_pos.mpr hX
        simp [backtrackRev, hX, hx, hsep, this]
    | cons y l =>
      have hs' : PathSeparator ∉ y :: l := fun h => hs (List.mem_cons_of_mem _ h)
      have := ih (by simp) hs'
      simp only [List.cons_append] at this ⊢
      rw [backtrackRev]
      simp [hx, this]

theorem backtrack_render_snoc (cs : List Str) (c : Str) (hc : RealElem c) :
    backtrack 1 (render (cs ++ [c])) = render cs := by
  unfold backtrack
  rw [render_snoc]
  have h1 : (body cs ++ PathSeparator :: c).reverse
      = c.reverse ++ PathSeparator :: (body cs).reverse := by simp
  rw [h1, backtrackRev_elem _ _ (by simpa using hc.1) (by simpa using hc.2.1)]
  unfold render
  cases cs with
  | nil => simp [body]
  | cons d ds => simp [body]

theorem isPathSeparator_iff (c : Char) : IsPathSeparator c = true ↔ c = PathSeparator := by
  simp [IsPathSeparator]

theorem takeWhile_elem (c y : Str) (hs : PathSeparator ∉ c)
    (hy : y = [] ∨ ∃ z, y = PathSeparator :: z) :
    (c ++ y).takeWhile (fun b => !IsPathSeparator b) = c
      ∧ (c ++ y).dropWhile (fun b => !IsPathSeparator b) = y := by
  induction c with
  | nil =>
    rcases hy with rfl | ⟨z, rfl⟩ <;> simp [IsPathSeparator]
  | cons x c ih =>
    have hx : IsPathSeparator x = false := by
      simp only [IsPathSeparator, decide_eq_false_iff_not]
      exact fun h => hs (by simp [h])
    have hs' : PathSeparator ∉ c := fun h => hs (List.mem_cons_of_mem _ h)
    have := ih hs'
    simp only [List.cons_append, List.takeWhile_cons, List.dropWhile_cons, hx, Bool.not_false,
      if_true, this, and_self]

theorem sep_not_mem_takeWhile (l : Str) :
    PathSeparator ∉ l.takeWhile (fun b => !IsPathSeparator b) := by
  intro h
  have := List.mem_takeWhile_imp h
  simp [IsPathSeparator] at this

theorem takeWhile_eq_nil_isElemEnd (t : Str)
    (h : t.takeWhile (fun b => !IsPathSeparator b) = []) : isElemEnd t = true := by
  cases t with
  | nil => rfl
  | cons y t =>
    cases hy : IsPathSeparator y with
    | true => simp [isElemEnd, hy]
    | false => simp [List.takeWhile_cons, hy] at h

theorem realElem_takeWhile (x : Char) (t : Str) (h1 : IsPathSeparator x = false)
    (h2 : ¬ (x = '.' ∧ isElemEnd t = true))
    (h3 : ¬ (x = '.' ∧ t.head? = some '.' ∧ isElemEnd t.tail = true)) :
    RealElem ((x :: t).takeWhile (fun b => !IsPathSeparator b)) := by
  have hx : (x :: t).takeWhile (fun b => !IsPathSeparator b)
      = x :: t.takeWhile (fun b => !IsPathSeparator b) := by
    simp [List.takeWhile_cons, h1]
  refine ⟨by simp [hx], sep_not_mem_takeWhile _, ?_, ?_⟩
  · rw [hx]
    intro h
    simp only [List.cons.injEq] at h
    exact h2 ⟨h.1, takeWhile_eq_nil_isElemEnd t h.2⟩
  · rw [hx]
    intro h
    simp only [List.cons.injEq] at h
    obtain ⟨hxd, ht⟩ := h
    cases t with
    | nil => simp at ht
    | cons y t =>
      cases hy : IsPathSeparator y with
      | true => simp [List.takeWhile_cons, hy] at ht
      | false =>
        simp only [List.takeWhile_cons, hy, Bool.not_false, if_true, List.cons.injEq] at ht
        exact h3 ⟨hxd, by simp [ht.1], takeWhile_eq_nil_isElemEnd t ht.2⟩

theorem render_push (cs : List Str) (e : Str) (h : ∀ c ∈ cs, RealElem c) :
    (if (render cs).length ≠ 1 then render cs ++ [PathSeparator] else render cs) ++ e
      = render (cs ++ [e]) := by
  rw [render_snoc]
  by_cases hcs : cs = []
  · subst hcs; simp [render, body]
  · have : (render cs).length ≠ 1 := fun h1 => hcs ((render_length_eq_one_iff cs h).mp h1)
    rw [if_pos this]
    simp [render, hcs]

/-- The loop of `Clean` on a rooted path keeps the buffer a rendered list of real elements. -/
theorem cleanLoop_rooted_form (fuel : Nat) : ∀ (rest : Str) (cs : List Str),
    (∀ c ∈ cs, RealElem c) →
    ∃ cs', (∀ c ∈ cs', RealElem c) ∧ cleanLoop true fuel rest (render cs) 1 = render cs' := by
  induction fuel with
  | zero => intro rest cs h; exact ⟨cs, h, rfl⟩
  | succ fuel ih =>
    intro rest cs h
    cases rest with
    | nil => exact ⟨cs, h, rfl⟩
    | cons x t =>
      rw [cleanLoop]
      cases h1 : IsPathSeparator x with
      | true => simp only [if_true]; exact ih t cs h
      | false =>
        simp only [Bool.false_eq_true, if_false]
        by_cases h2 : x = '.' ∧ isElemEnd t = true
        · rw [if_pos h2]; exact ih t cs h
        · rw [if_neg h2]
          by_cases h3 : x = '.' ∧ t.head? = some '.' ∧ isElemEnd t.tail = true
          · rw [if_pos h3]
            by_cases h4 : (render cs).length > 1
            · rw [if_pos h4]
              have hne : cs ≠ [] := by
                intro hcs; subst hcs; simp [render] at h4
              obtain ⟨ini, last, rfl⟩ : ∃ ini last, cs = ini ++ [last] :=
                ⟨cs.dropLast, cs.getLast hne, (List.dropLast_append_getLast hne).symm⟩
              rw [backtrack_render_snoc ini last (h last (by simp))]
              exact ih _ ini (fun c hc => h c (by simp [hc]))
            · rw [if_neg h4]
              simp only [not_true_eq_false, if_false]
              exact ih _ cs h
          · rw [if_neg h3]
            have hreal := realElem_takeWhile x t h1 h2 h3
            simp only [true_and, not_true_eq_false, false_and, or_false]
            rw [render_push cs _ h]
            exact ih _ _ (by
              intro c hc
              rcases List.mem_append.mp hc with hc | hc
              · exact h c hc
              · simp only [List.mem_singleton] at hc; subst hc; exact hreal)

theorem realElem_head (c : Str) (y : Str) (hc : RealElem c)
    (hy : y = [] ∨ ∃ z, y = PathSeparator :: z) :
    ∃ x t, c ++ y = x :: t ∧ IsPathSeparator x = false
      ∧ ¬ (x = '.' ∧ isElemEnd t = true)
      ∧ ¬ (x = '.' ∧ t.head? = some '.' ∧ isElemEnd t.tail = true) := by
  obtain ⟨hne, hsep, hdot, hdd⟩ := hc
  cases c with
  | nil => exact absurd rfl hne
  | cons x c =>
    have hx : x ≠ PathSeparator := fun h => hsep (by simp [h])
    refine ⟨x, c ++ y, rfl, by simp [IsPathSeparator, hx], ?_, ?_⟩
    · rintro ⟨hxd, hend⟩
      cases c with
      | nil => exact hdot (by rw [hxd])
      | cons x2 c =>
        have hx2 : x2 ≠ PathSeparator := fun h => hsep (by simp [h])
        simp [isElemEnd, IsPathSeparator, hx2] at hend
    · rintro ⟨hxd, hhead, hend⟩
      cases c with
      | nil =>
        rcases hy with rfl | ⟨z, rfl⟩
        · simp at hhead
        · simp [PathSeparator] at hhead
      | cons x2 c =>
        simp only [List.cons_append, List.head?_cons, Option.some.injEq] at hhead
        cases c with
        | nil => exact hdd (by rw [hxd, hhead])
        | cons x3 c =>
          have hx3 : x3 ≠ PathSeparator := fun h => hsep (by simp [h])
          simp [isElemEnd, IsPathSeparator, hx3] at hend

/-- The loop of `Clean` copies a path that is already a list of real elements. -/
theorem cleanLoop_rooted_copy : ∀ (cs : List Str) (c : Str) (acc : List Str) (fuel : Nat),
    RealElem c → (∀ d ∈ cs, RealElem d) → (∀ d ∈ acc, RealElem d) →
    1 + (body cs).length ≤ fuel →
    cleanLoop true fuel (c ++ body cs) (render acc) 1 = render (acc ++ c :: cs) := by
  intro cs
  induction cs with
  | nil =>
    intro c acc fuel hc _ hacc hfuel
    obtain ⟨f, rfl⟩ : ∃ f, fuel = f + 1 := ⟨fuel - 1, by omega⟩
    obtain ⟨x, t, hxt, h1, h2, h3⟩ := realElem_head c (body []) hc (body_eq_nil_or_head [])
    have htd := takeWhile_elem c (body []) hc.2.1 (body_eq_nil_or_head [])
    rw [hxt] at htd
    rw [hxt, cleanLoop]
    simp only [h1, Bool.false_eq_true, if_false, if_neg h2, if_neg h3, true_and,
      not_true_eq_false, false_and, or_false, htd.1, htd.2]
    rw [render_push acc c hacc]
    cases f <;> simp [cleanLoop, body]
  | cons c2 cs ih =>
    intro c acc fuel hc hcs hacc hfuel
    have hc2 : RealElem c2 := hcs c2 (by simp)
    have hlen := two_le_length_body c2 cs hc2.1
    have hlen2 : (body (c2 :: cs)).length = 1 + c2.length + (body cs).length := by
      simp [body]; omega
    have hc2len : 1 ≤ c2.length := List.length_pos.mpr hc2.1
    obtain ⟨f, rfl⟩ : ∃ f, fuel = f + 2 := ⟨fuel - 2, by omega⟩
    obtain ⟨x, t, hxt, h1, h2, h3⟩ :=
      realElem_head c (body (c2 :: cs)) hc (body_eq_nil_or_head _)
    have htd := takeWhile_elem c (body (c2 :: cs)) hc.2.1 (body_eq_nil_or_head _)
    rw [hxt] at htd
    rw [hxt, cleanLoop]
    simp only [h1, Bool.false_eq_true, if_false, if_neg h2, if_neg h3, true_and,
      not_true_eq_false, false_and, or_false, htd.1, htd.2]
    rw [render_push acc c hacc]
    have hsep : IsPathSeparator PathSeparator = true := by simp [IsPathSeparator]
    have hb : body (c2 :: cs) = PathSeparator :: (c2 ++ body cs) := rfl
    rw [hb, cleanLoop]
    simp only [hsep, if_true]
    have := ih c2 (acc ++ [c]) f hc2 (fun d hd => hcs d (by simp [hd]))
      (by
        intro d hd
        rcases List.mem_append.mp hd with hd | hd
        · exact hacc d hd
        · simp only [List.mem_singleton] at hd; subst hd; exact hc)
      (by omega)
    rw [this]
    simp

/-- `Clean` of a rooted path is a rendered list of real elements. -/
theorem Clean_rooted_form (t : Str) :
    ∃ cs, (∀ c ∈ cs, RealElem c) ∧ Clean (PathSeparator :: t) = render cs := by
  obtain ⟨cs, hcs, h⟩ := cleanLoop_rooted_form (PathSeparator :: t).length t [] (by simp)
  refine ⟨cs, hcs, ?_⟩
  have hsep : IsPathSeparator PathSeparator = true := by simp [IsPathSeparator]
  have hr : render [] = [PathSeparator] := by simp [render]
  rw [hr] at h
  unfold Clean
  simp only [hsep, if_true, h]
  have := render_ne_nil cs
  simp [this]

/-- A rendered list of real elements is a fixed point of `Clean`. -/
theorem Clean_render (cs : List Str) (hcs : ∀ c ∈ cs, RealElem c) :
    Clean (render cs) = render cs := by
  have hsep : IsPathSeparator PathSeparator = true := by simp [IsPathSeparator]
  have hr : render [] = [PathSeparator] := by simp [render]
  cases cs with
  | nil =>
    rw [hr]
    simp [Clean, hsep, cleanLoop]
  | cons c cs =>
    have hrc : render (c :: cs) = PathSeparator :: (c ++ body cs) := by simp [render, body]
    have := cleanLoop_rooted_copy cs c [] (PathSeparator :: (c ++ body cs)).length
      (hcs c (by simp)) (fun d hd => hcs d (by simp [hd])) (by simp)
      (by simp; omega)
    rw [hr] at this
    rw [hrc]
    unfold Clean
    simp only [hsep, if_true, this]
    simp [render, body]

theorem isAbs_iff (p : Str) : IsAbs p = true ↔ ∃ t, p = PathSeparator :: t := by
  cases p with
  | nil => simp [IsAbs, HasPrefix]
  | cons x t =>
    simp only [IsAbs, HasPrefix, List.isPrefixOf, Bool.and_true, beq_iff_eq, List.cons.injEq]
    constructor
    · intro h; exact ⟨t, h.symm, rfl⟩
    · rintro ⟨_, h, _⟩; exact h.symm

/-- `Clean` keeps an absolute path absolute. -/
theorem isAbs_Clean (p : Str) (h : IsAbs p = true) : IsAbs (Clean p) = true := by
  obtain ⟨t, rfl⟩ := (isAbs_iff p).mp h
  obtain ⟨cs, _, hc⟩ := Clean_rooted_form t
  rw [hc]
  exact (isAbs_iff _).mpr (render_head cs)

/-- `Clean` is idempotent on absolute paths. -/
theorem Clean_Clean (p : Str) (h : IsAbs p = true) : Clean (Clean p) = Clean p := by
  obtain ⟨t, rfl⟩ := (isAbs_iff p).mp h
  obtain ⟨cs, hcs, hc⟩ := Clean_rooted_form t
  rw [hc]
  exact Clean_render cs hcs

theorem Clean_ne_nil_of_isAbs (p : Str) (h : IsAbs p = true) : Clean p ≠ [] := by
  obtain ⟨t, rfl⟩ := (isAbs_iff p).mp h
  obtain ⟨cs, _, hc⟩ := Clean_rooted_form t
  rw [hc]
  exact render_ne_nil cs

/-- The fuel given by `Clean` never runs out: with at least one unit per byte
left to read, the loop gives the same result for every amount of fuel. -/
theorem cleanLoop_fuel (rooted : Bool) : ∀ (fuel1 fuel2 : Nat) (rest out : Str) (dotdot : Nat),
    rest.length ≤ fuel1 → rest.length ≤ fuel2 →
    cleanLoop rooted fuel1 rest out dotdot = cleanLoop rooted fuel2 rest out dotdot := by
  intro fuel1
  induction fuel1 with
  | zero =>
    intro fuel2 rest out dotdot h1 _
    have : rest = [] := List.length_eq_zero.mp (Nat.le_zero.mp h1)
    subst this
    cases fuel2 <;> rfl
  | succ f1 ih =>
    intro fuel2 rest out dotdot h1 h2
    cases rest with
    | nil => cases fuel2 <;> rfl
    | cons c t =>
      obtain ⟨f2, rfl⟩ : ∃ f2, fuel2 = f2 + 1 := ⟨fuel2 - 1, by simp at h2; omega⟩
      simp only [List.length_cons, Nat.add_le_add_iff_right] at h1 h2
      have htail : t.tail.length ≤ t.length := by simp
      rw [cleanLoop, cleanLoop]
      cases hc : IsPathSeparator c with
      | true => simp only [if_true]; exact ih _ _ _ _ h1 h2
      | false =>
        have hdrop : ((c :: t).dropWhile (fun b => !IsPathSeparator b)).length ≤ t.length := by
          simp only [List.dropWhile_cons, hc, Bool.not_false, if_true]
          exact (List.dropWhile_sublist _).length_le
        simp only [Bool.false_eq_true, if_false]
        split_ifs <;> exact ih _ _ _ _ (by omega) (by omega)

/-! ## Properties of `absPathify` -/

theorem indexByte_elem (name rest : Str) (h : PathSeparator ∉ name) :
    indexByte (name ++ PathSeparator :: rest) PathSeparator = some name.length := by
  induction name with
  | nil => simp [indexByte]
  | cons x name ih =>
    have hx : x ≠ PathSeparator := fun e => h (by simp [e])
    have := ih (fun e => h (List.mem_cons_of_mem _ e))
    simp [indexByte, hx, this]

theorem expandVar_var (env : Env) (name rest : Str) (h : PathSeparator ∉ name) :
    expandVar env ('$' :: (name ++ PathSeparator :: rest))
      = .ok (Getenv env name ++ PathSeparator :: rest) := by
  have hi : indexByte ('$' :: (name ++ PathSeparator :: rest)) PathSeparator
      = some (name.length + 1) := by
    have := indexByte_elem name rest h
    rw [indexByte, if_neg (by decide), this]
    rfl
  have hidx : Index ('$' :: (name ++ PathSeparator :: rest)) PathSeparator
      = ((name.length + 1 : Nat) : Int) := by
    simp [Index, hi]
  have hpre : HasPrefix ('$' :: (name ++ PathSeparator :: rest)) "$".toList = true := by
    simp [HasPrefix, List.isPrefixOf]
  have hs1 : slice ('$' :: (name ++ PathSeparator :: rest)) 1 ((name.length + 1 : Nat) : Int)
      = .ok name := by
    unfold slice
    rw [if_pos]
    · simp
    · refine ⟨by omega, by push_cast; omega, ?_⟩
      simp only [List.length_cons, List.length_append]
      push_cast
      omega
  have hs2 : sliceFrom ('$' :: (name ++ PathSeparator :: rest)) ((name.length + 1 : Nat) : Int)
      = .ok (PathSeparator :: rest) := by
    unfold sliceFrom
    rw [if_pos]
    · simp
    · refine ⟨by omega, ?_⟩
      simp only [List.length_cons, List.length_append]
      push_cast
      omega
  unfold expandVar
  rw [hpre]
  simp only [if_true, hidx, hs1, hs2]

theorem expandVar_of_not_dollar (env : Env) (p : Str) (h : HasPrefix p "$".toList = false) :
    expandVar env p = .ok p := by
  unfold expandVar
  rw [h]
  simp

theorem expandHome_of_not_home (env : Env) (p : Str) (h : HasPrefix p "$HOME".toList = false) :
    expandHome env p = .ok p := by
  unfold expandHome
  rw [h]
  simp

theorem expandHome_home (env : Env) (rest : Str) :
    expandHome env ("$HOME".toList ++ rest) = .ok (userHomeDir env ++ rest) := by
  have hpre : HasPrefix ("$HOME".toList ++ rest) "$HOME".toList = true := by
    simp [HasPrefix, List.isPrefixOf]
  have hs : sliceFrom ("$HOME".toList ++ rest) 5 = .ok rest := by
    unfold sliceFrom
    rw [if_pos]
    · simp
    · refine ⟨by omega, ?_⟩
      simp only [String.toList, List.length_cons, List.length_append, List.length_nil]
      push_cast
      omega
  unfold expandHome
  rw [hpre]
  simp only [if_true, hs]

theorem hasPrefix_home_elem (name rest : Str) (h : PathSeparator ∉ name)
    (hn : HasPrefix name "HOME".toList = false) :
    HasPrefix ('$' :: (name ++ PathSeparator :: rest)) "$HOME".toList = false := by
  rcases name with _ | ⟨a, _ | ⟨b, _ | ⟨c, _ | ⟨d, name⟩⟩⟩⟩
  all_goals simp_all [HasPrefix, List.isPrefixOf, PathSeparator]
  all_goals assumption

theorem hasPrefix_dollar_append (v rest : Str) (h : HasPrefix v "$".toList = false) :
    HasPrefix (v ++ PathSeparator :: rest) "$".toList = false := by
  cases v with
  | nil => simp [HasPrefix, List.isPrefixOf, PathSeparator]
  | cons x v => simpa [HasPrefix, List.isPrefixOf] using h

theorem Join_wd (wd p : Str) (h : IsAbs wd = true) :
    Join [wd, p] = Clean (wd ++ PathSeparator :: p) := by
  obtain ⟨t, rfl⟩ := (isAbs_iff wd).mp h
  simp [Join, List.intercalate]

theorem isAbs_append (wd p : Str) (h : IsAbs wd = true) : IsAbs (wd ++ p) = true := by
  obtain ⟨t, rfl⟩ := (isAbs_iff wd).mp h
  exact (isAbs_iff _).mpr ⟨t ++ p, rfl⟩

/-- With a working directory that is an absolute path, the last statements of
`absPathify` give an absolute path that `Clean` leaves unchanged. -/
theorem absClean_spec (env : Env) (wd : Str) (hwd : env.Getwd = .ok wd) (habs : IsAbs wd = true)
    (p : Str) :
    absClean env p = (if IsAbs p = true then Clean p else Clean (wd ++ PathSeparator :: p))
      ∧ IsAbs (absClean env p) = true ∧ Clean (absClean env p) = absClean env p := by
  have hj := isAbs_append wd (PathSeparator :: p) habs
  by_cases hp : IsAbs p = true
  · have h1 : absClean env p = Clean p := by simp [absClean, hp]
    rw [h1, if_pos hp]
    exact ⟨rfl, isAbs_Clean p hp, Clean_Clean p hp⟩
  · have h1 : absClean env p = Clean (wd ++ PathSeparator :: p) := by
      simp only [absClean, hp, Abs, hwd, Join_wd wd p habs]
      simp [Clean_Clean _ hj]
    rw [h1, if_neg hp]
    exact ⟨rfl, isAbs_Clean _ hj, Clean_Clean _ hj⟩

theorem ite_dot_ne_nil (out : Str) : (if out.length = 0 then ['.'] else out) ≠ [] := by
  by_cases h : out.length = 0
  · simp [h]
  · rw [if_neg h]
    exact fun e => h (by simp [e])

theorem Clean_ne_nil (p : Str) : Clean p ≠ [] := by
  cases p with
  | nil => simp [Clean]
  | cons c t =>
    unfold Clean
    exact ite_dot_ne_nil _

/-- A `$NAME/rest` input whose name is not a `HOME…` name goes through the second
statement of `absPathify` only. -/
theorem absPathify_var (env : Env) (name rest : Str) (h : PathSeparator ∉ name)
    (hn : HasPrefix name "HOME".toList = false) :
    absPathify env ('$' :: (name ++ PathSeparator :: rest))
      = .ok (absClean env (Getenv env name ++ PathSeparator :: rest)) := by
  unfold absPathify
  rw [expandHome_of_not_home env _ (hasPrefix_home_elem name rest h hn)]
  simp only [expandVar_var env name rest h]

/-- A `$HOME/rest` input goes through the first statement of `absPathify` only,
when the home directory does not itself start with `$`. -/
theorem absPathify_home (env : Env) (rest : Str)
    (hd : HasPrefix (userHomeDir env) "$".toList = false) :
    absPathify env ("$HOME".toList ++ PathSeparator :: rest)
      = .ok (absClean env (userHomeDir env ++ PathSeparator :: rest)) := by
  unfold absPathify
  rw [expandHome_home]
  simp only [expandVar_of_not_dollar env _ (hasPrefix_dollar_append _ rest hd)]

theorem absPathify_plain (env : Env) (p : Str) (hd : HasPrefix p "$".toList = false) :
    absPathify env p = .ok (absClean env p) := by
  have hh : HasPrefix p "$HOME".toList = false := by
    cases p with
    | nil => simp [HasPrefix, List.isPrefixOf]
    | cons x p =>
      simp only [HasPrefix, String.toList, List.isPrefixOf, Bool.and_true, beq_eq_false_iff_ne,
        ne_eq] at hd
      simp only [HasPrefix, String.toList, List.isPrefixOf, Bool.and_eq_false_imp, beq_iff_eq]
      intro e
      exact absurd e hd
  unfold absPathify
  rw [expandHome_of_not_home env _ hh]
  simp only [expandVar_of_not_dollar env _ hd]

/-! ## The claims -/

theorem launch_map_call (token : Str) (message : pushover.Message) (send : Nat → Option Str)
    (keys : List Str) : ∀ i : Nat,
    (launch token message send i keys).map (fun g => g.call)
      = keys.map (fun recipientKey =>
          ({ token := token, message := message, recipient := recipientKey } :
            pushover.SendCall)) := by
  induction keys with
  | nil => intro i; rfl
  | cons k ks ih => intro i; simp [launch, goroutine, ih (i + 1)]

theorem launch_length (token : Str) (message : pushover.Message) (send : Nat → Option Str)
    (keys : List Str) (i : Nat) : (launch token message send i keys).length = keys.length := by
  have := congrArg List.length (launch_map_call token message send keys i)
  simpa using this

theorem launch_map_output (token : Str) (message : pushover.Message) (send : Nat → Option Str)
    (keys : List Str) : ∀ i : Nat,
    (launch token message send i keys).map (fun g => g.output)
      = (keys.enumFrom i).map (fun p =>
          match send p.1 with
          | some e => [Output.Printf "failed to send to %s: %s\n" [.str p.2, .str e]]
          | none => []) := by
  induction keys with
  | nil => intro i; rfl
  | cons k ks ih => intro i; simp [launch, goroutine, List.enumFrom, ih (i + 1)]

theorem launch_map_priority (token : Str) (message : pushover.Message) (send : Nat → Option Str)
    (keys : List Str) (i : Nat) :
    (launch token message send i keys).map (fun g => g.call.message.Priority)
      = List.replicate keys.length message.Priority := by
  have h := congrArg (List.map (fun c : pushover.SendCall => c.message.Priority))
    (launch_map_call token message send keys i)
  simp only [List.map_map] at h
  rw [show (fun g : Goroutine => g.call.message.Priority)
      = (fun c : pushover.SendCall => c.message.Priority) ∘ (fun g => g.call) from rfl, h]
  simp [List.eq_replicate_iff]

theorem sendNotification_calls (w : Process) (message : pushover.Message) :
    (sendNotification w message).goroutines.map (fun g => g.call)
      = (viper.GetStringSlice w.config "pushover_user_key".toList).map (fun recipientKey =>
          ({ token := viper.GetString w.config "pushover_api_key".toList,
             message := { message with Priority := pushover.PriorityHigh },
             recipient := recipientKey } : pushover.SendCall)) := by
  simp only [sendNotification]
  exact launch_map_call _ _ _ _ 0

/-- C1: `sendNotification` issues exactly one send attempt per recipient key of the
configured list, in the same number and with the same keys, whatever the
outcome of the individual sends; each attempt carries the configured API key
and the given message (text and title), raised to high priority.  With an empty
list the number of attempts is zero. -/
theorem sendNotification_one_attempt_per_recipient (w : Process) (message : pushover.Message) :
    (sendNotification w message).goroutines.map (fun g => g.call)
        = (viper.GetStringSlice w.config "pushover_user_key".toList).map (fun recipientKey =>
            ({ token := viper.GetString w.config "pushover_api_key".toList,
               message :=
                { Message := message.Message, Title := message.Title,
                  Priority := pushover.PriorityHigh },
               recipient := recipientKey } : pushover.SendCall))
      ∧ (sendNotification w message).goroutines.length
          = (viper.GetStringSlice w.config "pushover_user_key".toList).length := by
  refine ⟨?_, ?_⟩
  · simp only [sendNotification]
    exact launch_map_call _ _ _ _ 0
  · simp only [sendNotification]
    exact launch_length _ _ _ _ 0

theorem get_eq_none_iff (cfg : viper.ConfigFile) (key : Str) :
    viper.Get cfg key = none ↔ absentOrNull cfg key = true := by
  unfold viper.Get absentOrNull
  cases h : cfg.lookup key with
  | none => simp
  | some v => cases v <;> simp

theorem checkRequiredKeys_two (cfg : viper.ConfigFile) (ku ka : Str) :
    checkRequiredKeys cfg [ku, ka] ([], false)
      = (([ku, ka].filter (fun key => absentOrNull cfg key)).map missingLine,
          absentOrNull cfg ku || absentOrNull cfg ka) := by
  have hu := get_eq_none_iff cfg ku
  have ha := get_eq_none_iff cfg ka
  simp only [checkRequiredKeys, List.filter]
  cases hu' : absentOrNull cfg ku <;> cases ha' : absentOrNull cfg ka <;>
    simp [hu', ha'] at hu ha <;> simp [hu, ha, missingLine]

theorem mustLoadConfig_ok (w : Process) (cfg : viper.ConfigFile)
    (h : w.ReadInConfig = .ok cfg) :
    mustLoadConfig w
      = if (checkRequiredKeys cfg requiredKeys ([], false)).2 = true then
          { output := (checkRequiredKeys cfg requiredKeys ([], false)).1 ++
              [.Printf "Use `%s init` to regenerate the config file in %s\n"
                [.str w.arg0, .str (defaultUserConfigPath w.env)]],
            exit := some 1 }
        else { output := (checkRequiredKeys cfg requiredKeys ([], false)).1, exit := none } := by
  unfold mustLoadConfig
  rw [h]

/-- C2: for a config file that was read and parsed, `mustLoadConfig` ends the
process with code 1 exactly when a required key (`pushover_user_key`,
`pushover_api_key`) is absent or null, and returns otherwise; it prints one
`config file is missing` line for every required key that is missing, in the
order of the required keys, followed by the hint when a key is missing. -/
theorem mustLoadConfig_exits_iff_key_missing (w : Process) (cfg : viper.ConfigFile)
    (h : w.ReadInConfig = .ok cfg) :
    ((mustLoadConfig w).exit = some 1 ↔
        (absentOrNull cfg "pushover_user_key".toList = true
          ∨ absentOrNull cfg "pushover_api_key".toList = true))
      ∧ ((mustLoadConfig w).exit = none ↔
        (absentOrNull cfg "pushover_user_key".toList = false
          ∧ absentOrNull cfg "pushover_api_key".toList = false))
      ∧ (mustLoadConfig w).output
          = (requiredKeys.filter (fun key => absentOrNull cfg key)).map missingLine
            ++ (if absentOrNull cfg "pushover_user_key".toList = true
                  ∨ absentOrNull cfg "pushover_api_key".toList = true then
                [.Printf "Use `%s init` to regenerate the config file in %s\n"
                  [.str w.arg0, .str (defaultUserConfigPath w.env)]]
                else []) := by
  rw [mustLoadConfig_ok w cfg h]
  unfold requiredKeys
  rw [checkRequiredKeys_two]
  cases hu' : absentOrNull cfg "pushover_user_key".toList <;>
    cases ha' : absentOrNull cfg "pushover_api_key".toList <;> simp

/-- Witness of C2: a config file without API key; the process ends with code 1
and the API key is the one key named. -/
theorem mustLoadConfig_exits_iff_key_missing_witness :
    (sampleProcess (.ok noApiKeyConfig)).ReadInConfig = .ok noApiKeyConfig
      ∧ (mustLoadConfig (sampleProcess (.ok noApiKeyConfig))).exit = some 1
      ∧ (mustLoadConfig (sampleProcess (.ok noApiKeyConfig))).output
          = [missingLine "pushover_api_key".toList,
             .Printf "Use `%s init` to regenerate the config file in %s\n"
               [.str "mobell".toList, .str "$XDG_CONFIG_HOME/mobell".toList]] := by
  have h := mustLoadConfig_exits_iff_key_missing (sampleProcess (.ok noApiKeyConfig))
    noApiKeyConfig rfl
  refine ⟨rfl, h.1.mpr (Or.inr (by decide)), ?_⟩
  rw [h.2.2]
  decide

/-- C3, the claim fails: with the config file `emptyApiKeyConfig` the API key is
present and is the empty string, yet `mustLoadConfig` returns, the root command
ends with code 0 and one send is attempted, with the empty API key. -/
theorem mustLoadConfig_accepts_empty_api_key :
    viper.Get emptyApiKeyConfig "pushover_api_key".toList = some (.str [])
      ∧ (mustLoadConfig (sampleProcess (.ok emptyApiKeyConfig))).exit = none
      ∧ (rootCmd (sampleProcess (.ok emptyApiKeyConfig)) []).exit = 0
      ∧ (rootCmd (sampleProcess (.ok emptyApiKeyConfig)) []).dispatch.map
          (fun d => d.goroutines.map (fun g => (g.call.token, g.call.recipient)))
        = some [([], "u1".toList)] := by
  decide

/-- C3, amended: `mustLoadConfig` checks that the required keys are present, not
that their values are non-empty.  For every config file that was read and in
which both required keys are present and not null, whatever their values (the
API key may be the empty string, the recipient key list may be empty),
`mustLoadConfig` returns without output, the root and push commands go on to
`sendNotification` and end with code 0, and the number of sends attempted is
the number of recipient keys, each with the API key as configured. -/
theorem mustLoadConfig_checks_presence_only (w : Process) (cfg : viper.ConfigFile)
    (args : List Str) (h : w.ReadInConfig = .ok cfg)
    (hu : absentOrNull cfg "pushover_user_key".toList = false)
    (ha : absentOrNull cfg "pushover_api_key".toList = false) :
    mustLoadConfig w = { output := [], exit := none }
      ∧ (rootCmd w args).exit = 0 ∧ (pushCmd w args).exit = 0
      ∧ (∃ d, (rootCmd w args).dispatch = some d
          ∧ d.goroutines.map (fun g => g.call.token)
            = List.replicate (viper.GetStringSlice cfg "pushover_user_key".toList).length
                (viper.GetString cfg "pushover_api_key".toList))
      ∧ (∃ d, (pushCmd w args).dispatch = some d
          ∧ d.goroutines.map (fun g => g.call.token)
            = List.replicate (viper.GetStringSlice cfg "pushover_user_key".toList).length
                (viper.GetString cfg "pushover_api_key".toList)) := by
  have hl : mustLoadConfig w = { output := [], exit := none } := by
    rw [mustLoadConfig_ok w cfg h]
    unfold requiredKeys
    rw [checkRequiredKeys_two]
    simp only [List.filter, hu, ha]
    rfl
  have hcfg : w.config = cfg := by simp [Process.config, h]
  have hd : ∀ m, (sendNotification w m).goroutines.map (fun g => g.call.token)
      = List.replicate (viper.GetStringSlice cfg "pushover_user_key".toList).length
          (viper.GetString cfg "pushover_api_key".toList) := by
    intro m
    have h1 := congrArg (List.map (fun c : pushover.SendCall => c.token))
      (sendNotification_calls w m)
    simp only [List.map_map] at h1
    rw [show (fun g : Goroutine => g.call.token)
        = (fun c : pushover.SendCall => c.token) ∘ (fun g => g.call) from rfl, h1, hcfg]
    simp [List.eq_replicate_iff]
  have hr : ∀ m, afterLoad w m
      = { output := [] ++ (sendNotification w m).output, exit := 0,
          dispatch := some (sendNotification w m) } := by
    intro m
    simp only [afterLoad, hl]
  refine ⟨hl, ?_, ?_, ?_, ?_⟩
  · simp only [rootCmd, hr]
  · simp only [pushCmd, hr]
  · exact ⟨sendNotification w
        (pushover.NewMessageWithTitle ("Triggered at ".toList ++ w.nowRFC822) title),
      by simp only [rootCmd, hr], hd _⟩
  · exact ⟨sendNotification w (pushover.NewMessageWithTitle (pushCmdMessage w args) title),
      by simp only [pushCmd, hr], hd _⟩

/-- Witness of C3, amended: the config file `emptyApiKeyConfig`. -/
theorem mustLoadConfig_checks_presence_only_witness :
    (sampleProcess (.ok emptyApiKeyConfig)).ReadInConfig = .ok emptyApiKeyConfig
      ∧ absentOrNull emptyApiKeyConfig "pushover_user_key".toList = false
      ∧ absentOrNull emptyApiKeyConfig "pushover_api_key".toList = false
      ∧ mustLoadConfig (sampleProcess (.ok emptyApiKeyConfig)) = { output := [], exit := none }
      ∧ (pushCmd (sampleProcess (.ok emptyApiKeyConfig)) []).exit = 0 :=
  have h := mustLoadConfig_checks_presence_only (sampleProcess (.ok emptyApiKeyConfig))
    emptyApiKeyConfig [] rfl (by decide) (by decide)
  ⟨rfl, by decide, by decide, h.1, h.2.2.1⟩

/-- C4, the claim fails: the one send attempted for `oneRecipientConfig` carries
priority 1, and the service supports the higher level 2 (emergency). -/
theorem sendNotification_priority_below_emergency :
    (sendNotification (sampleProcess (.ok oneRecipientConfig))
        (pushover.NewMessageWithTitle "hi".toList title)).goroutines.map
          (fun g => g.call.message.Priority) = [1]
      ∧ pushover.PriorityEmergency ∈ pushover.priorities
      ∧ (1 : Int) < pushover.PriorityEmergency := by
  decide

/-- C4, amended: whatever priority the message had on entry, every send attempt
of `sendNotification` carries the priority `pushover.PriorityHigh`. -/
theorem sendNotification_priority_high (w : Process) (message : pushover.Message) :
    (sendNotification w message).goroutines.map (fun g => g.call.message.Priority)
      = List.replicate (viper.GetStringSlice w.config "pushover_user_key".toList).length
          pushover.PriorityHigh := by
  simp only [sendNotification]
  exact launch_map_priority _ _ _ _ 0

theorem getenv_ne_nil_iff (env : Env) (key : Str) :
    Getenv env key ≠ [] ↔ isSetNonEmpty env key = true := by
  unfold Getenv isSetNonEmpty
  cases env.vars key with
  | none => simp
  | some v => simp

/-- C7: the config paths registered by `main()` are, in this order,
`$MOBELL_CONF_PATH` if and only if that variable is set to a non-empty value,
then the default user directory, `$XDG_CONFIG_HOME/mobell` when
`XDG_CONFIG_HOME` is set to a non-empty value and `$HOME/.config/mobell`
otherwise, then `/etc/mobell/`; when no config file is found the process ends
with code 1 and the last line printed reports the default user directory. -/
theorem configPaths_order (w : Process) (err : Str) :
    configPaths w.env
        = (if isSetNonEmpty w.env "MOBELL_CONF_PATH".toList = true then
            ["$MOBELL_CONF_PATH".toList] else [])
          ++ [if isSetNonEmpty w.env "XDG_CONFIG_HOME".toList = true then
                "$XDG_CONFIG_HOME/mobell".toList else "$HOME/.config/mobell".toList,
              "/etc/mobell/".toList]
      ∧ (mustLoadConfig { w with ReadInConfig := .notFound err }).exit = some 1
      ∧ (mustLoadConfig { w with ReadInConfig := .notFound err }).output.getLast?
        = some (.Printf "Use `%s init` to create a config file in %s\n"
            [.str w.arg0,
             .str (if isSetNonEmpty w.env "XDG_CONFIG_HOME".toList = true then
                "$XDG_CONFIG_HOME/mobell".toList else "$HOME/.config/mobell".toList)]) := by
  have hx := getenv_ne_nil_iff w.env "XDG_CONFIG_HOME".toList
  have hm := getenv_ne_nil_iff w.env "MOBELL_CONF_PATH".toList
  have hd : defaultUserConfigPath w.env
      = (if isSetNonEmpty w.env "XDG_CONFIG_HOME".toList = true then
          "$XDG_CONFIG_HOME/mobell".toList else "$HOME/.config/mobell".toList) := by
    unfold defaultUserConfigPath
    by_cases hxs : isSetNonEmpty w.env "XDG_CONFIG_HOME".toList = true
    · rw [if_pos (hx.mpr hxs), if_pos hxs]
    · rw [if_neg (fun e => hxs (hx.mp e)), if_neg hxs]
  refine ⟨?_, rfl, ?_⟩
  · simp only [configPaths, viper.AddConfigPath, hd]
    by_cases hms : isSetNonEmpty w.env "MOBELL_CONF_PATH".toList = true
    · rw [if_pos (hm.mpr hms), if_pos hms]
      rfl
    · rw [if_neg (fun e => hms (hm.mp e)), if_neg hms]
      rfl
  · rw [← hd]
    rfl

/-- C8: when the config loads, the message the push command hands to
`sendNotification` has the fixed title, and its text is the first argument,
unchanged, when there is one, and `Triggered at ` followed by the current time
in RFC-822 format when there is none. -/
theorem pushCmd_message_body (w : Process) (args : List Str)
    (h : (mustLoadConfig w).exit = none) :
    ∃ d, (pushCmd w args).dispatch = some d
      ∧ d.handed.Title = "Mobell 🔔".toList
      ∧ d.handed.Message = args.head?.getD ("Triggered at ".toList ++ w.nowRFC822) := by
  refine ⟨sendNotification w (pushover.NewMessageWithTitle (pushCmdMessage w args) title),
    by simp only [pushCmd, afterLoad, h], rfl, ?_⟩
  cases args with
  | nil => rfl
  | cons a rest => rfl

/-- Witness of C8: `push hello` with the config file `oneRecipientConfig`. -/
theorem pushCmd_message_body_witness :
    (mustLoadConfig (sampleProcess (.ok oneRecipientConfig))).exit = none
      ∧ ∃ d, (pushCmd (sampleProcess (.ok oneRecipientConfig)) ["hello".toList]).dispatch = some d
        ∧ d.handed.Title = "Mobell 🔔".toList
        ∧ d.handed.Message
          = (["hello".toList] : List Str).head?.getD
              ("Triggered at ".toList ++ (sampleProcess (.ok oneRecipientConfig)).nowRFC822) :=
  ⟨by decide, pushCmd_message_body (sampleProcess (.ok oneRecipientConfig)) ["hello".toList]
    (by decide)⟩

/-- C9, the claim fails: with one recipient whose send fails, no recipient is
reached, and the `Sent to %d users.` line still reports 1; the failure is
reported by the goroutine with the recipient key and the reason. -/
theorem sendNotification_sent_count_ignores_failures :
    reached (sampleProcess (.ok oneRecipientConfig)) 1 = 0
      ∧ (sendNotification (sampleProcess (.ok oneRecipientConfig))
          (pushover.NewMessageWithTitle "hi".toList title)).output.getLast?
        = some (.Printf "Sent to %d users.\n" [.int 1])
      ∧ (sendNotification (sampleProcess (.ok oneRecipientConfig))
          (pushover.NewMessageWithTitle "hi".toList title)).goroutines.map (fun g => g.output)
        = [[.Printf "failed to send to %s: %s\n"
              [.str "u1".toList, .str "network unreachable".toList]]] := by
  decide

/-- C9, amended: `sendNotification` reports two counts, one in its
`Sending to %d users` line and one in its `Sent to %d users.` line, and both
are the number of recipient keys, whatever the outcome of the sends: the
second count is the number of sends attempted, not the number of recipients
reached.  The goroutine of each failed send prints the recipient key and the
failure reason, the goroutine of a successful send prints nothing. -/
theorem sendNotification_reports (w : Process) (message : pushover.Message) :
    (sendNotification w message).output
        = [.Println [.str (viper.GetString w.config "pushover_api_key".toList)],
           .Printf "Sending to %d users\n"
             [.int (viper.GetStringSlice w.config "pushover_user_key".toList).length]]
          ++ (viper.GetStringSlice w.config "pushover_user_key".toList).map
              (fun recipientKey => .Println [.str recipientKey])
          ++ [.Printf "Sent to %d users.\n"
             [.int (viper.GetStringSlice w.config "pushover_user_key".toList).length]]
      ∧ (sendNotification w message).goroutines.map (fun g => g.output)
        = (viper.GetStringSlice w.config "pushover_user_key".toList).enum.map (fun p =>
            match w.SendMessage p.1 with
            | some e => [Output.Printf "failed to send to %s: %s\n" [.str p.2, .str e]]
            | none => []) := by
  refine ⟨rfl, ?_⟩
  simp only [sendNotification]
  exact launch_map_output _ _ _ _ 0

/-- C10, the code at the failing input: the API key has 30 characters, the first
user key is `short` (5 characters) and the second has 30 characters.  The one
note printed is for user key #1 and the length it states is 30, the length of
the API key. -/
theorem initCmd_user_key_note_states_api_key_length :
    len ("short".toList) = 5
      ∧ initCmd linuxEnv sampleWizard
        = .ok
          { output :=
              [.Println
                [.str "To use Mobell, you must setup an account at https://pushover.net.".toList],
               .Println [.str "Enter your API key:".toList],
               .Println [.str "Enter your User key (comma separated if multiple):".toList],
               .Println [.str "Config saved.".toList],
               .Println [],
               .Printf
                "Note: pushover.net user keys are usually 32 characters but #%d is %d characters.\n"
                [.int 1, .int 30]],
            exit := 0,
            written := some
              { file := "/home/u/.cfg/mobell/config.json".toList,
                pushover_api_key := List.replicate 30 'a',
                pushover_user_key := ["short".toList, List.replicate 30 'u'] } } := by
  decide

theorem absClean_of_isAbs (env : Env) (p : Str) (h : IsAbs p = true) :
    absClean env p = Clean p := by
  simp [absClean, h]

theorem absPathify_plainName (env : Env) (name rest : Str) (hsep : PathSeparator ∉ name)
    (hname : plainName env name) :
    absPathify env ('$' :: (name ++ PathSeparator :: rest))
      = .ok (absClean env (Getenv env name ++ PathSeparator :: rest)) := by
  rcases hname with hn | ⟨rfl, hos, hd⟩
  · exact absPathify_var env name rest hsep hn
  · have hh : userHomeDir env = Getenv env "HOME".toList := by
      unfold userHomeDir
      rw [if_neg hos]
    have := absPathify_home env rest (by rw [hh]; exact hd)
    rw [hh] at this
    exact this

/-- C5, the claim fails: in `linuxEnv` the variable `V` is set, to the relative
path `rel`, and `absPathify` of `$V/x` is the working directory joined with
`rel/x`, not the clean form of the value of `V` followed by `/x`; on the bare
reference `$V` it does not return, it panics. -/
theorem absPathify_relative_variable_value :
    linuxEnv.vars "V".toList = some "rel".toList
      ∧ absPathify linuxEnv "$V/x".toList = .ok "/w/d/rel/x".toList
      ∧ Clean ("rel".toList ++ "/x".toList) = "rel/x".toList
      ∧ absPathify linuxEnv "$V".toList = .error .sliceBounds := by
  decide

/-- C5, amended: let the working directory `wd` be known and absolute.  For an
input `$VAR/rest` (a separator follows the name, and the name is `HOME` off
Windows or does not begin with `HOME`), `absPathify` returns the clean form of
the value of `VAR` followed by `/rest` when that path is absolute (the value
is absolute or empty), and the clean form of `wd` joined with it when the value
is a relative path.  For a relative input that does not start with `$` it
returns the clean form of `wd` joined with the input.  In all these cases the
result is absolute and `Clean` leaves it unchanged. -/
theorem absPathify_absolute_clean (env : Env) (wd : Str) (hwd : env.Getwd = .ok wd)
    (habs : IsAbs wd = true) :
    (∀ name rest : Str, PathSeparator ∉ name → plainName env name →
      ∃ out, absPathify env ('$' :: (name ++ PathSeparator :: rest)) = .ok out
        ∧ IsAbs out = true ∧ Clean out = out
        ∧ out = (if IsAbs (Getenv env name ++ PathSeparator :: rest) = true then
                  Clean (Getenv env name ++ PathSeparator :: rest)
                else Clean (wd ++ PathSeparator :: (Getenv env name ++ PathSeparator :: rest))))
      ∧ (∀ inPath : Str, IsAbs inPath = false → HasPrefix inPath "$".toList = false →
        ∃ out, absPathify env inPath = .ok out
          ∧ IsAbs out = true ∧ Clean out = out
          ∧ out = Clean (wd ++ PathSeparator :: inPath)) := by
  constructor
  · intro name rest hsep hname
    obtain ⟨h1, h2, h3⟩ := absClean_spec env wd hwd habs (Getenv env name ++ PathSeparator :: rest)
    exact ⟨_, absPathify_plainName env name rest hsep hname, h2, h3, h1⟩
  · intro inPath hrel hd
    obtain ⟨h1, h2, h3⟩ := absClean_spec env wd hwd habs inPath
    refine ⟨_, absPathify_plain env inPath hd, h2, h3, ?_⟩
    rw [h1, hrel]
    simp

/-- Witness of C5, amended: in `linuxEnv`, the inputs `$XDG_CONFIG_HOME/mobell`
and `conf/../mobell`. -/
theorem absPathify_absolute_clean_witness :
    linuxEnv.Getwd = .ok "/w/d".toList ∧ IsAbs "/w/d".toList = true
      ∧ (∃ out, absPathify linuxEnv "$XDG_CONFIG_HOME/mobell".toList = .ok out
          ∧ IsAbs out = true ∧ Clean out = out ∧ out = "/home/u/.cfg/mobell".toList)
      ∧ (∃ out, absPathify linuxEnv "conf/../mobell".toList = .ok out
          ∧ IsAbs out = true ∧ Clean out = out ∧ out = "/w/d/mobell".toList) := by
  have h := absPathify_absolute_clean linuxEnv "/w/d".toList rfl rfl
  refine ⟨rfl, rfl, ?_, ?_⟩
  · obtain ⟨out, h1, h2, h3, h4⟩ :=
      h.1 "XDG_CONFIG_HOME".toList "mobell".toList (by decide) (Or.inl (by decide))
    exact ⟨out, h1, h2, h3, h4.trans (by decide)⟩
  · obtain ⟨out, h1, h2, h3, h4⟩ := h.2 "conf/../mobell".toList (by decide) (by decide)
    exact ⟨out, h1, h2, h3, h4.trans (by decide)⟩

/-- C6, the claim fails: in `linuxEnv` the variable `NAME` is not set;
`absPathify` of `$NAME/rest` is `/rest`, not the empty string, and on the bare
reference `$NAME` it panics with a slice out of range. -/
theorem absPathify_keeps_rest_of_unset_reference :
    linuxEnv.vars "NAME".toList = none
      ∧ absPathify linuxEnv "$NAME/rest".toList = .ok "/rest".toList
      ∧ absPathify linuxEnv "$NAME".toList = .error .sliceBounds := by
  decide

/-- C6, amended: for an input `$NAME/rest` in which a separator follows the name
(`NAME` is `HOME` off Windows, or does not begin with `HOME`) and whose variable
is not set, `absPathify` does not panic: the reference is replaced by the empty
string and the result is the clean form of `/rest`, an absolute path and never
the empty string. -/
theorem absPathify_unset_variable (env : Env) (name rest : Str) (hsep : PathSeparator ∉ name)
    (hname : HasPrefix name "HOME".toList = false
      ∨ (name = "HOME".toList ∧ env.GOOS ≠ "windows".toList))
    (hunset : env.vars name = none) :
    absPathify env ('$' :: (name ++ PathSeparator :: rest)) = .ok (Clean (PathSeparator :: rest))
      ∧ IsAbs (Clean (PathSeparator :: rest)) = true
      ∧ Clean (PathSeparator :: rest) ≠ [] := by
  have hv : Getenv env name = [] := by simp [Getenv, hunset]
  have hroot : IsAbs (PathSeparator :: rest) = true := (isAbs_iff _).mpr ⟨rest, rfl⟩
  have hplain : plainName env name := by
    rcases hname with hn | ⟨hn, hos⟩
    · exact Or.inl hn
    · refine Or.inr ⟨hn, hos, ?_⟩
      rw [← hn, hv]
      rfl
  refine ⟨?_, isAbs_Clean _ hroot, Clean_ne_nil _⟩
  rw [absPathify_plainName env name rest hsep hplain, hv]
  simp only [List.nil_append]
  rw [absClean_of_isAbs env _ hroot]

/-- Witness of C6, amended: in `linuxEnv`, the input `$NAME/a/../rest`. -/
theorem absPathify_unset_variable_witness :
    PathSeparator ∉ "NAME".toList ∧ HasPrefix "NAME".toList "HOME".toList = false
      ∧ linuxEnv.vars "NAME".toList = none
      ∧ absPathify linuxEnv "$NAME/a/../rest".toList = .ok "/rest".toList := by
  have h := absPathify_unset_variable linuxEnv "NAME".toList "a/../rest".toList (by decide)
    (Or.inl (by decide)) rfl
  exact ⟨by decide, by decide, rfl, h.1.trans (by decide)⟩

end Mobell
